import Mathlib

/-!
Verification of the batch summarization/judging pipeline.

Shallow embedding of the core components:
- `evaluateSummary` (services/geminiService.ts, the revision using
  `generateGenericOpenAIRequest`): input validation, judge-response parsing,
  score clamping, `comparedToReference` bookkeeping.
- `retryWithBackoff` and the `RequestQueue` admission gate
  (src/utils/requestQueue.ts).
- `processBatch` (src/hooks/useBatchProcessor.ts): sequential item loop,
  per-item fan-out over run configurations, per-configuration error capture,
  cooperative cancellation checks.
- `resetBatchStatus` (the batch input component).

Network calls and JSON parsing of external responses are modelled as oracles:
an `Except`-valued outcome per call site, or a `JudgeOutcome` describing what
the judge returned (invocation failure, unparsable body, or a parsed object).
Cancellation (`AbortController.signal.aborted`) is modelled as the boolean the
code would observe at each of its explicit check points.
-/

namespace LlmTool

/-- String-keyed dictionary, modelling a JS `Record`. -/
abbrev RecMap (α : Type) := String → Option α

def RecMap.empty {α : Type} : RecMap α := fun _ => none

def RecMap.set {α : Type} (m : RecMap α) (k : String) (v : α) : RecMap α :=
  fun q => if q = k then some v else m q

/-- `status` field of a `BatchItem` (types.ts): `pending | processing | done | error`. -/
inductive Status where
  | pending
  | processing
  | done
  | error
deriving DecidableEq, Repr

def Status.isDone : Status → Bool
  | .done => true
  | _ => false

def Status.isProcessing : Status → Bool
  | .processing => true
  | _ => false

/-- `JudgeCriteria` (types.ts): one weighted rubric dimension. -/
structure JudgeCriteria where
  id : String
  name : String
  weight : Int
  description : String
deriving DecidableEq, Repr

/-- Provider tag; the source dispatches on a string (`'local' | 'cloud' | 'gemini'`). -/
inductive ModelProvider where
  | local
  | cloud
  | gemini
deriving DecidableEq, Repr

/-- A JSON value as relevant to the judge-response fields the code reads.
`typeof x === 'number'` distinguishes `num` from every other constructor;
a missing field (JS `undefined`) behaves like any non-`num` constructor
and is modelled by `null`. -/
inductive JsonVal where
  | num (q : ℚ)
  | str (s : String)
  | bool (b : Bool)
  | null
deriving DecidableEq, Repr

/-- Outcome of the judge invocation inside `evaluateSummary`, as an oracle:
either `generateGenericOpenAIRequest` threw (`invokeError`), or it returned a
body on which `JSON.parse` (after code-fence stripping) threw (`parseError`),
or parsing produced an object with the three fields the code reads. -/
inductive JudgeOutcome where
  | invokeError (msg : String)
  | parseError (msg : String)
  | parsed (score : JsonVal) (note : Option String)
      (criteriaScores : Option (List (String × JsonVal)))
deriving DecidableEq, Repr

/-- `EvaluationResult` (services/geminiService.ts). -/
structure EvaluationResult where
  score : ℚ
  note : String
  criteriaScores : Option (List (String × ℚ))
  comparedToReference : Bool
deriving DecidableEq, Repr

/-- `Math.min(10, Math.max(0, x))` — the clamp used on the judge score and on
every per-criterion score. -/
def clampScore (q : ℚ) : ℚ := min 10 (max 0 q)

/-- `typeof result.score === 'number' ? Math.min(10, Math.max(0, result.score)) : 0`. -/
def parseScoreField : JsonVal → ℚ
  | .num q => clampScore q
  | _ => 0

/-- `result.note || "No explanation provided."` (JS falsy check: an absent note
or an empty string both fall back to the default). -/
def noteOrDefault : Option String → String
  | some s => if s.isEmpty then "No explanation provided." else s
  | none => "No explanation provided."

/-- The `for (const [key, value] of Object.entries(result.criteriaScores))`
loop: keep only number-typed entries, clamping each into `[0, 10]`. -/
def clampEntries (l : List (String × JsonVal)) : List (String × ℚ) :=
  l.filterMap fun kv =>
    match kv.2 with
    | .num q => some (kv.1, clampScore q)
    | _ => none

/-- `!s.trim()` / `s.trim().length === 0`: a string trims to the empty string
exactly when every character is whitespace.  Stated directly on the character
list so that concrete instances reduce. -/
def isBlank (s : String) : Bool := s.data.all Char.isWhitespace

/-- `!!(referenceSummary && referenceSummary.trim().length > 0)`. -/
def hasRef : Option String → Bool
  | some r => !(isBlank r)
  | none => false

/-- `evaluateSummary` (services/geminiService.ts).  The judge invocation and
the JSON parse of its response are supplied as the `judge` oracle; everything
else is the function's own logic, translated clause by clause:
three fail-fast validation returns, then the dispatch on the oracle outcome
mirroring the code's try/catch around the invocation and the inner try/catch
around `JSON.parse`. -/
def evaluateSummary (originalText generatedSummary : String)
    (criteria : List JudgeCriteria) (_provider : ModelProvider)
    (model endpoint _apiKey : String) (referenceSummary : Option String)
    (judge : JudgeOutcome) : EvaluationResult :=
  if isBlank originalText || isBlank generatedSummary then
    ⟨0, "Evaluation failed: Missing original text or generated summary", none, false⟩
  else if isBlank model || isBlank endpoint then
    ⟨0, "Evaluation failed: Judge model or endpoint not configured", none, false⟩
  else if criteria.isEmpty then
    ⟨0, "Evaluation failed: No criteria defined", none, false⟩
  else
    match judge with
    | .invokeError msg =>
        ⟨0, "Evaluation failed: " ++ msg, none, hasRef referenceSummary⟩
    | .parseError msg =>
        ⟨0, "Error parsing evaluator response: " ++ msg, none, hasRef referenceSummary⟩
    | .parsed score note criteriaScores =>
        ⟨parseScoreField score, noteOrDefault note,
          criteriaScores.map clampEntries, hasRef referenceSummary⟩

/-- The disjunction of the three fail-fast validation guards of
`evaluateSummary`, in the code's order. -/
def evalFailFast (originalText generatedSummary : String)
    (criteria : List JudgeCriteria) (model endpoint : String) : Bool :=
  isBlank originalText || isBlank generatedSummary ||
    isBlank model || isBlank endpoint || criteria.isEmpty

/-!
`retryWithBackoff` (src/utils/requestQueue.ts).  The task is an oracle
`fn : Nat → Except E A` giving the outcome of each attempt (the source's `fn`
takes no argument; indexing by the attempt number lets one task fail and a
retry succeed, exactly as the mocks in requestQueue.test.ts do).  The source's
`for (let attempt = 0; attempt <= maxRetries; attempt++)` loop is translated
with `remaining = maxRetries - attempt` as the structural fuel; the guard
`if (attempt === maxRetries) break` is exactly `remaining = 0`.  The model
returns, besides the result, the number of invocations performed and the list
of `baseDelay * 2 ** attempt` sleeps executed between attempts.
-/

def retryAux {E A : Type} (fn : Nat → Except E A) (baseDelay attempt : Nat) :
    Nat → Except E A × Nat × List Nat
  | 0 =>
    match fn attempt with
    | .ok a => (.ok a, 1, [])
    | .error e => (.error e, 1, [])
  | remaining + 1 =>
    match fn attempt with
    | .ok a => (.ok a, 1, [])
    | .error _ =>
      let rest := retryAux fn baseDelay (attempt + 1) remaining
      (rest.1, rest.2.1 + 1, baseDelay * 2 ^ attempt :: rest.2.2)

/-- `retryWithBackoff(fn, maxRetries, baseDelay)`: result, total invocation
count, and inter-attempt delays. -/
def retryWithBackoff {E A : Type} (fn : Nat → Except E A)
    (maxRetries baseDelay : Nat) : Except E A × Nat × List Nat :=
  retryAux fn baseDelay 0 maxRetries

/-- `generateGenericOpenAIRequest` (services/geminiService.ts) wraps the
request in `retryWithBackoff(..., 3, 1000)`; the request body itself (URL
normalization, headers, fetch, response decoding) is the oracle `fn`. -/
def generateGenericOpenAIRequest (fn : Nat → Except String String) :
    Except String String × Nat × List Nat :=
  retryWithBackoff fn 3 1000

/-- `Evaluation` (types.ts): the entry stored in `BatchItem.evaluations`. -/
structure Evaluation where
  score : ℚ
  note : String
  isGroundTruth : Bool
  criteriaScores : Option (List (String × ℚ))
  comparedToReference : Option Bool
deriving DecidableEq, Repr

/-- `BatchItem` (types.ts). -/
structure BatchItem where
  id : String
  title : Option String
  sourceText : String
  referenceSummary : Option String
  status : Status
  results : RecMap String
  evaluations : RecMap Evaluation
  error : Option String

/-- `resetBatchStatus` (batch input component):
`prev.map(item => ({ ...item, status: 'pending', results: {}, evaluations: {} }))`. -/
def resetBatchStatus (items : List BatchItem) : List BatchItem :=
  items.map fun item =>
    { item with status := .pending, results := RecMap.empty, evaluations := RecMap.empty }

/-!
`RequestQueue` (src/utils/requestQueue.ts).  `add` suspends (polling with
`setTimeout`) while `running >= maxConcurrent`, then increments `running`,
runs the task, and decrements in a `finally`.  The async execution is modelled
as a transition system over the pool of submitted tasks: each task is waiting,
running, or finished (the `ok` flag of `finished` records whether the task
returned or threw — the `finally` decrement happens either way).  The state
carries the class's `running` counter verbatim; the semantics lets any waiting
task start whenever the counter is below capacity (the polling loop observing
a free slot) and any running task finish.
-/

inductive TaskPhase where
  | waiting
  | running
  | finished (ok : Bool)
deriving DecidableEq, Repr

def TaskPhase.isRunning : TaskPhase → Bool
  | .running => true
  | _ => false

structure QueueState where
  phases : List TaskPhase
  running : Nat
deriving DecidableEq, Repr

/-- A fresh `RequestQueue` with `n` submitted tasks: `this.running = 0`. -/
def initQueue (n : Nat) : QueueState :=
  ⟨List.replicate n .waiting, 0⟩

/-- `getRunningCount(): number { return this.running; }` -/
def getRunningCount (s : QueueState) : Nat := s.running

/-- `isFull(): boolean { return this.running >= this.maxConcurrent; }` -/
def isFull (maxConcurrent : Nat) (s : QueueState) : Bool :=
  decide (maxConcurrent ≤ s.running)

/-- One scheduler step of the queue.  `start`: the polling loop of `add` sees
`running < maxConcurrent` and the task does `this.running++` and begins
executing.  `finish`: a running task completes (returning `ok = true` or
throwing `ok = false`) and the `finally` block does `this.running--`. -/
inductive QStep (maxConcurrent : Nat) : QueueState → QueueState → Prop where
  | start (s : QueueState) (i : Nat)
      (hw : s.phases[i]? = some .waiting)
      (hc : s.running < maxConcurrent) :
      QStep maxConcurrent s ⟨s.phases.set i .running, s.running + 1⟩
  | finish (s : QueueState) (i : Nat) (ok : Bool)
      (hr : s.phases[i]? = some .running) :
      QStep maxConcurrent s ⟨s.phases.set i (.finished ok), s.running - 1⟩

/-- States reachable by the queue from `n` freshly submitted tasks. -/
def QueueReachable (maxConcurrent n : Nat) (s : QueueState) : Prop :=
  Relation.ReflTransGen (QStep maxConcurrent) (initQueue n) s

/-!
`processBatch` (src/hooks/useBatchProcessor.ts).  The orchestrator filters the
items with `status !== 'done'`, then for each one in order: checks the abort
signal, marks the item `processing` (a `setBatchItems` functional update),
runs every active run configuration (`Promise.all`), checks the signal again,
and writes the item back as `done` with the accumulated `itemResults` /
`itemEvaluations` in a single `setBatchItems` update.

Oracles: `genOracle itemId configId` is the outcome of `generateSummary`
(`Except String String`, the error carrying `e.message`), and
`evalOracle itemId configId` the outcome of the `evaluateSummary` call.
`AbortObs` records the value of `signal.aborted` at each read the code
performs for one item: `p0` at the top of the item loop (line 35), `q1` at the
start of a configuration's task (line 46), `q2` after its generation resolves
(line 68), `q3` just before the judge invocation (line 97), and `p1` after
`Promise.all` settles (line 130).
-/

/-- `RunConfiguration` restricted to the fields the orchestrator's judge
dispatch reads (`id` for lookup, `model` for `useMainModelAsJudge`); the other
generation parameters only feed the request that the generation oracle
abstracts. -/
structure RunConfiguration where
  id : String
  model : String
deriving DecidableEq, Repr

/-- The slice of `AppConfig` that `processBatch` branches on. -/
structure BatchConfig where
  runConfigurations : List RunConfiguration
  activeRunConfigs : List String
  useMainModelAsJudge : Bool
  judgeModel : String
deriving DecidableEq, Repr

/-- `signal.aborted` as observed at each check point while processing one
item (`q1`/`q2`/`q3` are per configuration id). -/
structure AbortObs where
  p0 : Bool
  q1 : String → Bool
  q2 : String → Bool
  q3 : String → Bool
  p1 : Bool

/-- A run during which cancellation never fires. -/
def noAbortObs : AbortObs :=
  ⟨false, fun _ => false, fun _ => false, fun _ => false, false⟩

/-- `const judgeModel = config.useMainModelAsJudge ? runConfig.model :
config.judgeModel;` (line 75). -/
def judgeModelFor (cfg : BatchConfig) (rc : RunConfiguration) : String :=
  if cfg.useMainModelAsJudge then rc.model else cfg.judgeModel

/-- `config.runConfigurations.find(c => c.id === configId)` (line 48). -/
def findRunConfig (cfg : BatchConfig) (configId : String) : Option RunConfiguration :=
  cfg.runConfigurations.find? fun c => c.id = configId

/-- The per-configuration async task (lines 45–128), as the pair of writes it
makes to `itemResults` / `itemEvaluations` for its own `configId` (`none` =
no write).  Mirrors the source's control flow: early return on an observed
abort; the outer catch turning a generation throw into
`results = "Error: <message>"` plus a zero-score evaluation; the judge block
guarded by `if (judgeModel)` (JS truthiness: nonempty string); the inner catch
turning an evaluation throw into a zero-score evaluation while the already
written generation result stands. -/
def runConfigTask (judgeModel : String) (genOutcome : Except String String)
    (evalOutcome : Except String EvaluationResult) (aQ1 aQ2 aQ3 : Bool) :
    Option String × Option Evaluation :=
  if aQ1 then (none, none)
  else
    match genOutcome with
    | .error e => (some ("Error: " ++ e), some ⟨0, "Generation failed", false, none, none⟩)
    | .ok result =>
      if aQ2 then (none, none)
      else if judgeModel.isEmpty then (some result, none)
      else if aQ3 then (some result, none)
      else
        match evalOutcome with
        | .error _ => (some result, some ⟨0, "Evaluation failed", false, none, none⟩)
        | .ok ev =>
            (some result, some ⟨ev.score, ev.note, false, ev.criteriaScores,
              some ev.comparedToReference⟩)

/-- The writes configuration `cid` contributes for one item: nothing when the
configuration id is not found (`if (!runConfig) return;`), else the task's
writes. -/
def taskWrites (cfg : BatchConfig) (genOracle : String → Except String String)
    (evalOracle : String → Except String EvaluationResult) (ab : AbortObs)
    (cid : String) : Option String × Option Evaluation :=
  match findRunConfig cfg cid with
  | none => (none, none)
  | some rc =>
      runConfigTask (judgeModelFor cfg rc) (genOracle cid) (evalOracle cid)
        (ab.q1 cid) (ab.q2 cid) (ab.q3 cid)

/-- Apply one optional write to a dictionary. -/
def applyWrite {α : Type} (m : RecMap α) (k : String) : Option α → RecMap α
  | some v => m.set k v
  | none => m

/-- The `Promise.all(config.activeRunConfigs.map(...))` fan-out: starting from
the empty `itemResults` / `itemEvaluations`, accumulate every configuration's
writes. -/
def processItemWrites (cfg : BatchConfig)
    (genOracle : String → Except String String)
    (evalOracle : String → Except String EvaluationResult) (ab : AbortObs) :
    RecMap String × RecMap Evaluation :=
  cfg.activeRunConfigs.foldl
    (fun acc cid =>
      let w := taskWrites cfg genOracle evalOracle ab cid
      (applyWrite acc.1 cid w.1, applyWrite acc.2 cid w.2))
    (RecMap.empty, RecMap.empty)

/-- `prev.map(pi => pi.id === id ? f(pi) : pi)` — the shape of both
`setBatchItems` functional updates. -/
def updateById (id : String) (f : BatchItem → BatchItem)
    (items : List BatchItem) : List BatchItem :=
  items.map fun pi => if pi.id = id then f pi else pi

/-- `{ ...pi, status: 'processing' }` (line 38). -/
def markProcessing (it : BatchItem) : BatchItem :=
  { it with status := .processing }

/-- `{ ...pi, status: 'done', results: itemResults, evaluations:
itemEvaluations }` (lines 133–138). -/
def finishItem (w : RecMap String × RecMap Evaluation) (it : BatchItem) : BatchItem :=
  { it with status := .done, results := w.1, evaluations := w.2 }

/-- The `for (const item of pendingItems)` loop, emitting the successive batch
states produced by each `setBatchItems` call.  `abortOf` gives the abort
observations for the iteration handling a given item id.  A `p0` observation
of `true` breaks before any update; a `p1` observation of `true` breaks after
the `processing` mark but before the merge, discarding the fan-out's writes. -/
def runPending (cfg : BatchConfig)
    (genOracle : String → String → Except String String)
    (evalOracle : String → String → Except String EvaluationResult)
    (abortOf : String → AbortObs) :
    List BatchItem → List BatchItem → List (List BatchItem)
  | [], _ => []
  | item :: rest, state =>
    if (abortOf item.id).p0 then []
    else
      let s1 := updateById item.id markProcessing state
      let w := processItemWrites cfg (genOracle item.id) (evalOracle item.id)
        (abortOf item.id)
      if (abortOf item.id).p1 then [s1]
      else
        let s2 := updateById item.id (finishItem w) s1
        s1 :: s2 :: runPending cfg genOracle evalOracle abortOf rest s2

/-- The batch-state trace of `processBatch(items)`: the selection
`items.filter(i => i.status !== 'done')` followed by the sequential item
loop, starting from the caller's current `batchItems`. -/
def processBatchTrace (cfg : BatchConfig)
    (genOracle : String → String → Except String String)
    (evalOracle : String → String → Except String EvaluationResult)
    (abortOf : String → AbortObs) (items : List BatchItem) :
    List (List BatchItem) :=
  runPending cfg genOracle evalOracle abortOf
    (items.filter fun i => !i.status.isDone) items

/-- The final batch state after `processBatch` returns. -/
def processBatch (cfg : BatchConfig)
    (genOracle : String → String → Except String String)
    (evalOracle : String → String → Except String EvaluationResult)
    (abortOf : String → AbortObs) (items : List BatchItem) :
    List BatchItem :=
  (processBatchTrace cfg genOracle evalOracle abortOf items).getLastD items

/-!
Concrete fixtures for counterexamples and witnesses, mirroring the mock data
of the repository's test files.
-/

def sampleCriterion : JudgeCriteria := ⟨"1", "ACCURACY", 50, "Test accuracy"⟩

def itemOne : BatchItem :=
  ⟨"1", none, "Text 1", none, .pending, RecMap.empty, RecMap.empty, none⟩

def itemTwo : BatchItem :=
  ⟨"2", none, "Text 2", none, .pending, RecMap.empty, RecMap.empty, none⟩

/-- One active configuration, a separately configured judge model. -/
def cfgSingle : BatchConfig := ⟨[⟨"config1", "model1"⟩], ["config1"], false, "judge-model"⟩

/-- Two active configurations, judge disabled (`judgeModel` empty). -/
def cfgTwo : BatchConfig := ⟨[⟨"fast", "m1"⟩, ⟨"slow", "m2"⟩], ["fast", "slow"], false, ""⟩

def genSummaryResult : String → String → Except String String :=
  fun _ _ => .ok "Summary result"

def evalBoom : String → String → Except String EvaluationResult :=
  fun _ _ => .error "boom"

def genFastSlow : String → String → Except String String :=
  fun _ cid => if cid = "fast" then .ok "fast result" else .ok "slow result"

def noAbort : String → AbortObs := fun _ => noAbortObs

/-- Cancellation firing after the fast configuration's generation resolved
(its `q2` read saw `false`) but before the slow one's resolved (its `q2` read,
and the post-fan-out `p1` read, see `true`). -/
def abortMidFlight : String → AbortObs :=
  fun _ => ⟨false, fun _ => false, fun cid => cid = "slow", fun _ => true, true⟩

def alwaysFails : Nat → Except String String := fun _ => .error "Always fails"

/-- A judge response whose total score (15) and criterion score (-5) are both
out of range. -/
def judgeFifteen : JudgeOutcome :=
  .parsed (.num 15) (some "Test") (some [("ACCURACY", .num (-5))])

/-- Two active configurations and a configured judge, for the isolation
witness. -/
def cfgIso : BatchConfig :=
  ⟨[⟨"A", "mA"⟩, ⟨"B", "mB"⟩], ["A", "B"], false, "judge-model"⟩

/-- Generation throws for configuration `A`, succeeds for `B`. -/
def genIso : String → String → Except String String :=
  fun _ cid => if cid = "A" then .error "boom" else .ok "B output"

/-- The judge invocation throws for every configuration. -/
def evalIso : String → String → Except String EvaluationResult :=
  fun _ _ => .error "judge down"

/-- A completed item carrying results and evaluations, for the reset witness. -/
def itemDone : BatchItem :=
  ⟨"1", some "Title", "source text", some "ref text", .done,
    RecMap.empty.set "config1" "generated",
    RecMap.empty.set "config1" ⟨7, "fine", false, none, none⟩, none⟩

/-!
Theorems.  Shared helper lemmas come first; then one theorem per claim (with
its witness or counterexample where required).
-/

lemma clampScore_nonneg (q : ℚ) : 0 ≤ clampScore q :=
  le_min (by norm_num) (le_max_left 0 q)

lemma clampScore_le_ten (q : ℚ) : clampScore q ≤ 10 :=
  min_le_left 10 _

lemma parseScoreField_nonneg (v : JsonVal) : 0 ≤ parseScoreField v := by
  cases v
  · exact clampScore_nonneg _
  all_goals norm_num [parseScoreField]

lemma parseScoreField_le_ten (v : JsonVal) : parseScoreField v ≤ 10 := by
  cases v
  · exact clampScore_le_ten _
  all_goals norm_num [parseScoreField]

lemma clampEntries_mem {l : List (String × JsonVal)} {kv : String × ℚ}
    (h : kv ∈ clampEntries l) : 0 ≤ kv.2 ∧ kv.2 ≤ 10 := by
  rcases List.mem_filterMap.mp h with ⟨⟨k, v⟩, -, hkv⟩
  cases v with
  | num q =>
    obtain rfl : (k, clampScore q) = kv := Option.some.inj hkv
    exact ⟨clampScore_nonneg _, clampScore_le_ten _⟩
  | str s => exact Option.noConfusion hkv
  | bool b => exact Option.noConfusion hkv
  | null => exact Option.noConfusion hkv

/-- Claim C5: whatever `score` the judge returns (any rational, or a
non-numeric value), `evaluateSummary` yields a score in `[0, 10]`; every
retained `criteriaScores` entry is independently in `[0, 10]`; and when the
judge's score is a number and the inputs pass validation, the result is the
saturation `min 10 (max 0 score)` — out-of-range values are clamped, never
rejected. -/
theorem evaluateSummary_score_clamped
    (originalText generatedSummary : String) (criteria : List JudgeCriteria)
    (provider : ModelProvider) (model endpoint apiKey : String)
    (referenceSummary : Option String) (judge : JudgeOutcome) :
    (0 ≤ (evaluateSummary originalText generatedSummary criteria provider model
        endpoint apiKey referenceSummary judge).score ∧
      (evaluateSummary originalText generatedSummary criteria provider model
        endpoint apiKey referenceSummary judge).score ≤ 10) ∧
    (∀ cs, (evaluateSummary originalText generatedSummary criteria provider model
        endpoint apiKey referenceSummary judge).criteriaScores = some cs →
      ∀ kv ∈ cs, 0 ≤ kv.2 ∧ kv.2 ≤ 10) ∧
    (evalFailFast originalText generatedSummary criteria model endpoint = false →
      ∀ q note cs, judge = .parsed (.num q) note cs →
        (evaluateSummary originalText generatedSummary criteria provider model
          endpoint apiKey referenceSummary judge).score = min 10 (max 0 q)) := by
  simp only [evaluateSummary, evalFailFast]
  refine ⟨?_, ?_, ?_⟩
  · split
    · norm_num
    split
    · norm_num
    split
    · norm_num
    rcases judge with msg | msg | ⟨score, note, cs⟩
    · exact ⟨le_refl 0, (by norm_num : (0 : ℚ) ≤ 10)⟩
    · exact ⟨le_refl 0, (by norm_num : (0 : ℚ) ≤ 10)⟩
    · exact ⟨parseScoreField_nonneg score, parseScoreField_le_ten score⟩
  · intro cs hcs kv hkv
    split at hcs
    · simp_all
    split at hcs
    · simp_all
    split at hcs
    · simp_all
    rcases judge with msg | msg | ⟨score, note, csp⟩
    · simp_all
    · simp_all
    · simp only [Option.map_eq_some'] at hcs
      rcases hcs with ⟨l, _, rfl⟩
      exact clampEntries_mem hkv
  · intro hff q note cs hj
    subst hj
    simp only [Bool.or_eq_false_iff] at hff
    obtain ⟨⟨⟨⟨h1, h2⟩, h3⟩, h4⟩, h5⟩ := hff
    simp [h1, h2, h3, h4, h5, parseScoreField, clampScore]

/-- Witness for C5 at a concrete out-of-range judge response: the score 15 is
saturated (to `min 10 (max 0 15) = 10`), not rejected. -/
theorem evaluateSummary_score_clamped_witness :
    evalFailFast "original" "summary" [sampleCriterion] "gpt-4"
      "http://localhost:1234" = false ∧
    (evaluateSummary "original" "summary" [sampleCriterion] .local "gpt-4"
      "http://localhost:1234" "" none judgeFifteen).score = min 10 (max 0 (15 : ℚ)) :=
  ⟨by decide,
    (evaluateSummary_score_clamped "original" "summary" [sampleCriterion] .local
      "gpt-4" "http://localhost:1234" "" none judgeFifteen).2.2 (by decide) 15
      (some "Test") (some [("ACCURACY", JsonVal.num (-5))]) rfl⟩

/-- Claim C6: `evaluateSummary` fails fast — the result does not depend on the
judge oracle at all (conjunct one: the same value results for any two judge
outcomes, i.e. no network invocation is consulted) and is the synthetic
zero-score `Evaluation` with the branch's diagnostic note — whenever the
original or generated text is blank, the judge model or endpoint is unset, or
the criteria list is empty. -/
theorem evaluateSummary_validation
    (originalText generatedSummary : String) (criteria : List JudgeCriteria)
    (provider : ModelProvider) (model endpoint apiKey : String)
    (referenceSummary : Option String) (j j' : JudgeOutcome) :
    (evalFailFast originalText generatedSummary criteria model endpoint = true →
      evaluateSummary originalText generatedSummary criteria provider model
          endpoint apiKey referenceSummary j =
        evaluateSummary originalText generatedSummary criteria provider model
          endpoint apiKey referenceSummary j') ∧
    ((isBlank originalText || isBlank generatedSummary) = true →
      evaluateSummary originalText generatedSummary criteria provider model
          endpoint apiKey referenceSummary j =
        ⟨0, "Evaluation failed: Missing original text or generated summary", none, false⟩) ∧
    ((isBlank originalText || isBlank generatedSummary) = false →
      (isBlank model || isBlank endpoint) = true →
      evaluateSummary originalText generatedSummary criteria provider model
          endpoint apiKey referenceSummary j =
        ⟨0, "Evaluation failed: Judge model or endpoint not configured", none, false⟩) ∧
    ((isBlank originalText || isBlank generatedSummary) = false →
      (isBlank model || isBlank endpoint) = false →
      criteria.isEmpty = true →
      evaluateSummary originalText generatedSummary criteria provider model
          endpoint apiKey referenceSummary j =
        ⟨0, "Evaluation failed: No criteria defined", none, false⟩) := by
  refine ⟨?_, ?_, ?_, ?_⟩
  · intro hff
    cases h1 : (isBlank originalText || isBlank generatedSummary) with
    | true => simp [evaluateSummary, h1]
    | false =>
      cases h2 : (isBlank model || isBlank endpoint) with
      | true => simp [evaluateSummary, h1, h2]
      | false =>
        cases h3 : criteria.isEmpty with
        | true => simp [evaluateSummary, h1, h2, h3]
        | false =>
          simp only [Bool.or_eq_false_iff] at h1 h2
          simp [evalFailFast, h1.1, h1.2, h2.1, h2.2, h3] at hff
  · intro h1
    simp [evaluateSummary, h1]
  · intro h1 h2
    simp [evaluateSummary, h1, h2]
  · intro h1 h2 h3
    simp [evaluateSummary, h1, h2, h3]

/-- Witness for C6: empty original text — the result is the synthetic
zero-score value and is identical for two different judge outcomes (no
network call influences it). -/
theorem evaluateSummary_validation_witness :
    (isBlank "" || isBlank "summary") = true ∧
    evaluateSummary "" "summary" [sampleCriterion] .local "gpt-4"
        "http://localhost:1234" "" none (.invokeError "x") =
      ⟨0, "Evaluation failed: Missing original text or generated summary", none, false⟩ ∧
    evaluateSummary "" "summary" [sampleCriterion] .local "gpt-4"
        "http://localhost:1234" "" none (.invokeError "x") =
      evaluateSummary "" "summary" [sampleCriterion] .local "gpt-4"
        "http://localhost:1234" "" none (.parsed (.num 9) none none) :=
  ⟨by decide,
    (evaluateSummary_validation "" "summary" [sampleCriterion] .local "gpt-4"
      "http://localhost:1234" "" none (.invokeError "x") (.parsed (.num 9) none none)).2.1
      (by decide),
    (evaluateSummary_validation "" "summary" [sampleCriterion] .local "gpt-4"
      "http://localhost:1234" "" none (.invokeError "x") (.parsed (.num 9) none none)).1
      (by decide)⟩

/-- Counterexample to claim C7 as stated: with a blank original text but a
non-empty reference summary supplied, `evaluateSummary` returns
`comparedToReference = false` on the fail-fast path, although a non-empty
reference was supplied (`hasRef = true`). -/
theorem evaluateSummary_comparedToReference_cex :
    (evaluateSummary "" "summary" [sampleCriterion] .local "gpt-4"
      "http://localhost:1234" "" (some "a reference")
      (.parsed (.num 5) none none)).comparedToReference = false ∧
    hasRef (some "a reference") = true := by
  decide

/-- Claim C7 (amended): on every return path past the fail-fast validation,
`comparedToReference` equals whether a non-empty reference summary was
supplied; on the three fail-fast paths it is `false` regardless of the
reference argument. -/
theorem evaluateSummary_comparedToReference
    (originalText generatedSummary : String) (criteria : List JudgeCriteria)
    (provider : ModelProvider) (model endpoint apiKey : String)
    (referenceSummary : Option String) (judge : JudgeOutcome) :
    (evalFailFast originalText generatedSummary criteria model endpoint = false →
      (evaluateSummary originalText generatedSummary criteria provider model
        endpoint apiKey referenceSummary judge).comparedToReference =
        hasRef referenceSummary) ∧
    (evalFailFast originalText generatedSummary criteria model endpoint = true →
      (evaluateSummary originalText generatedSummary criteria provider model
        endpoint apiKey referenceSummary judge).comparedToReference = false) := by
  constructor
  · intro hff
    simp only [evalFailFast, Bool.or_eq_false_iff] at hff
    obtain ⟨⟨⟨⟨h1, h2⟩, h3⟩, h4⟩, h5⟩ := hff
    rcases judge with msg | msg | ⟨score, note, cs⟩ <;>
      simp [evaluateSummary, h1, h2, h3, h4, h5]
  · intro hff
    cases h1 : (isBlank originalText || isBlank generatedSummary) with
    | true => simp [evaluateSummary, h1]
    | false =>
      cases h2 : (isBlank model || isBlank endpoint) with
      | true => simp [evaluateSummary, h1, h2]
      | false =>
        cases h3 : criteria.isEmpty with
        | true => simp [evaluateSummary, h1, h2, h3]
        | false =>
          simp only [Bool.or_eq_false_iff] at h1 h2
          simp [evalFailFast, h1.1, h1.2, h2.1, h2.2, h3] at hff

/-- Witness for the amended C7: with valid inputs and the reference
`"reference summary here"` supplied, `comparedToReference` records it; with a
blank original text, the fail-fast path reports `false`. -/
theorem evaluateSummary_comparedToReference_witness :
    evalFailFast "original" "summary" [sampleCriterion] "gpt-4"
      "http://localhost:1234" = false ∧
    (evaluateSummary "original" "summary" [sampleCriterion] .local "gpt-4"
      "http://localhost:1234" "" (some "reference summary here")
      (.parsed (.num 7) (some "Compared") none)).comparedToReference =
      hasRef (some "reference summary here") ∧
    (evaluateSummary "" "summary" [sampleCriterion] .local "gpt-4"
      "http://localhost:1234" "" (some "reference summary here")
      (.parsed (.num 7) (some "Compared") none)).comparedToReference = false :=
  ⟨by decide,
    (evaluateSummary_comparedToReference "original" "summary" [sampleCriterion]
      .local "gpt-4" "http://localhost:1234" "" (some "reference summary here")
      (.parsed (.num 7) (some "Compared") none)).1 (by decide),
    (evaluateSummary_comparedToReference "" "summary" [sampleCriterion]
      .local "gpt-4" "http://localhost:1234" "" (some "reference summary here")
      (.parsed (.num 7) (some "Compared") none)).2 (by decide)⟩

/-- Claim C10: `evaluateSummary` converts judge failures into data (the Lean
embedding is a total function — every input and oracle outcome yields an
`EvaluationResult`, mirroring that no exception escapes the function): past
validation, an invocation failure yields score 0 with a note beginning
`"Evaluation failed:"`, and an unparsable response body yields score 0 with a
note beginning `"Error parsing evaluator response"`. -/
theorem evaluateSummary_error_to_data
    (originalText generatedSummary : String) (criteria : List JudgeCriteria)
    (provider : ModelProvider) (model endpoint apiKey : String)
    (referenceSummary : Option String)
    (hvalid : evalFailFast originalText generatedSummary criteria model endpoint = false) :
    (∀ msg,
      (evaluateSummary originalText generatedSummary criteria provider model
        endpoint apiKey referenceSummary (.invokeError msg)).score = 0 ∧
      (evaluateSummary originalText generatedSummary criteria provider model
        endpoint apiKey referenceSummary (.invokeError msg)).note =
        "Evaluation failed: " ++ msg ∧
      ∃ rest,
        (evaluateSummary originalText generatedSummary criteria provider model
          endpoint apiKey referenceSummary (.invokeError msg)).note =
          "Evaluation failed: " ++ rest) ∧
    (∀ msg,
      (evaluateSummary originalText generatedSummary criteria provider model
        endpoint apiKey referenceSummary (.parseError msg)).score = 0 ∧
      (evaluateSummary originalText generatedSummary criteria provider model
        endpoint apiKey referenceSummary (.parseError msg)).note =
        "Error parsing evaluator response: " ++ msg ∧
      ∃ rest,
        (evaluateSummary originalText generatedSummary criteria provider model
          endpoint apiKey referenceSummary (.parseError msg)).note =
          "Error parsing evaluator response: " ++ rest) := by
  simp only [evalFailFast, Bool.or_eq_false_iff] at hvalid
  obtain ⟨⟨⟨⟨h1, h2⟩, h3⟩, h4⟩, h5⟩ := hvalid
  constructor
  · intro msg
    refine ⟨?_, ?_, msg, ?_⟩ <;> simp [evaluateSummary, h1, h2, h3, h4, h5]
  · intro msg
    refine ⟨?_, ?_, msg, ?_⟩ <;> simp [evaluateSummary, h1, h2, h3, h4, h5]

/-- Witness for C10 at a concrete failing invocation and a concrete parse
failure. -/
theorem evaluateSummary_error_to_data_witness :
    evalFailFast "original" "summary" [sampleCriterion] "gpt-4"
      "http://localhost:1234" = false ∧
    (evaluateSummary "original" "summary" [sampleCriterion] .local "gpt-4"
      "http://localhost:1234" "" none (.invokeError "boom")).note =
      "Evaluation failed: " ++ "boom" ∧
    (evaluateSummary "original" "summary" [sampleCriterion] .local "gpt-4"
      "http://localhost:1234" "" none (.parseError "Invalid JSON")).note =
      "Error parsing evaluator response: " ++ "Invalid JSON" :=
  ⟨by decide,
    ((evaluateSummary_error_to_data "original" "summary" [sampleCriterion] .local
      "gpt-4" "http://localhost:1234" "" none (by decide)).1 "boom").2.1,
    ((evaluateSummary_error_to_data "original" "summary" [sampleCriterion] .local
      "gpt-4" "http://localhost:1234" "" none (by decide)).2 "Invalid JSON").2.1⟩

lemma retryAux_alwaysFail {E A : Type} (fn : Nat → Except E A) (e : Nat → E)
    (hf : ∀ i, fn i = .error (e i)) (b : Nat) :
    ∀ r a, retryAux fn b a r =
      (Except.error (e (a + r)), r + 1,
        (List.range r).map fun j => b * 2 ^ (a + j)) := by
  intro r
  induction r with
  | zero =>
    intro a
    simp [retryAux, hf a]
  | succ n ih =>
    intro a
    simp only [retryAux, hf a]
    rw [ih (a + 1), List.range_succ_eq_map]
    have harg : a + 1 + n = a + (n + 1) := by omega
    have hfun : ((fun j => b * 2 ^ (a + j)) ∘ Nat.succ) =
        fun j => b * 2 ^ (a + 1 + j) := by
      funext j
      have hj : a + Nat.succ j = a + 1 + j := by omega
      simp only [Function.comp, hj]
    simp [harg, hfun]

/-- Counterexample to claim C3 as stated: the claim's "(up to N attempts,
default 3)" fails on the code — with the wrapper's parameters
(`maxRetries = 3`, `baseDelay = 1000`), a permanently failing task is invoked
4 times, not at most 3. -/
theorem retryWithBackoff_attempts_cex :
    (generateGenericOpenAIRequest alwaysFails).2.1 = 4 ∧
    ¬(generateGenericOpenAIRequest alwaysFails).2.1 ≤ 3 := by
  decide

/-- Claim C3 (amended): for a permanently failing task, `retryWithBackoff`
invokes it exactly `maxRetries + 1` times, sleeps `baseDelay * 2 ^ attempt`
between attempt `attempt` and the next, and finally rethrows the last error;
the behaviour is uniform in the errors produced (the statement holds for every
error type `E` and every error sequence `e`, so no error class is treated
differently).  The invoker wraps each request with `maxRetries = 3`,
`baseDelay = 1000` — up to `maxRetries + 1 = 4` attempts, with delays
1000, 2000, 4000 ms. -/
theorem retryWithBackoff_bound {E A : Type} (fn : Nat → Except E A)
    (e : Nat → E) (maxRetries baseDelay : Nat)
    (hf : ∀ i, fn i = .error (e i)) :
    retryWithBackoff fn maxRetries baseDelay =
      (Except.error (e maxRetries), maxRetries + 1,
        (List.range maxRetries).map fun attempt => baseDelay * 2 ^ attempt) ∧
    ∀ (fn' : Nat → Except String String) (e' : Nat → String),
      (∀ i, fn' i = .error (e' i)) →
      generateGenericOpenAIRequest fn' =
        (Except.error (e' 3), 4, [1000, 2000, 4000]) := by
  constructor
  · rw [retryWithBackoff, retryAux_alwaysFail fn e hf baseDelay maxRetries 0]
    simp
  · intro fn' e' hf'
    rw [generateGenericOpenAIRequest, retryWithBackoff,
      retryAux_alwaysFail fn' e' hf' 1000 3 0]
    rfl

/-- Witness for the amended C3: the test file's concrete scenario
(`retryWithBackoff(fn, 2, 100)` on an always-failing task: 3 invocations,
delays 100 and 200, final error rethrown) and the invoker's wrapping. -/
theorem retryWithBackoff_bound_witness :
    retryWithBackoff alwaysFails 2 100 =
      (Except.error "Always fails", 3, [100, 200]) ∧
    generateGenericOpenAIRequest alwaysFails =
      (Except.error "Always fails", 4, [1000, 2000, 4000]) :=
  ⟨((retryWithBackoff_bound alwaysFails (fun _ => "Always fails") 2 100
      (fun _ => rfl)).1).trans rfl,
    (retryWithBackoff_bound alwaysFails (fun _ => "Always fails") 2 100
      (fun _ => rfl)).2 alwaysFails (fun _ => "Always fails") (fun _ => rfl)⟩

/-- Claim C8: after `resetBatchStatus`, every item has status `pending` with
empty `results` and `evaluations`, while `sourceText`, `referenceSummary` and
every other field (`id`, `title`, `error`) are unchanged; in particular a
`done` item transitions to `pending`. -/
theorem resetBatchStatus_spec (items : List BatchItem) (i : Nat)
    (orig : BatchItem) (h : items[i]? = some orig) :
    ∃ r, (resetBatchStatus items)[i]? = some r ∧
      r.status = .pending ∧ r.results = RecMap.empty ∧
      r.evaluations = RecMap.empty ∧ r.sourceText = orig.sourceText ∧
      r.referenceSummary = orig.referenceSummary ∧ r.id = orig.id ∧
      r.title = orig.title ∧ r.error = orig.error ∧
      (orig.status = .done → r.status = .pending) := by
  have key : (resetBatchStatus items)[i]? =
      some { orig with
        status := Status.pending,
        results := RecMap.empty,
        evaluations := RecMap.empty } := by
    rw [resetBatchStatus, List.getElem?_map, h]
    rfl
  exact ⟨_, key, rfl, rfl, rfl, rfl, rfl, rfl, rfl, rfl, fun _ => rfl⟩

/-- Witness for C8 at a concrete completed item. -/
theorem resetBatchStatus_spec_witness :
    [itemDone][0]? = some itemDone ∧
    ∃ r, (resetBatchStatus [itemDone])[0]? = some r ∧
      r.status = .pending ∧ r.results = RecMap.empty ∧
      r.evaluations = RecMap.empty ∧ r.sourceText = itemDone.sourceText ∧
      r.referenceSummary = itemDone.referenceSummary ∧ r.id = itemDone.id ∧
      r.title = itemDone.title ∧ r.error = itemDone.error ∧
      (itemDone.status = .done → r.status = .pending) :=
  ⟨rfl, resetBatchStatus_spec [itemDone] 0 itemDone rfl⟩

lemma isRunning_waiting : TaskPhase.isRunning TaskPhase.waiting = false := rfl

lemma isRunning_running : TaskPhase.isRunning TaskPhase.running = true := rfl

lemma isRunning_finished (ok : Bool) :
    TaskPhase.isRunning (TaskPhase.finished ok) = false := rfl

lemma countP_set {α : Type} (f : α → Bool) :
    ∀ (l : List α) (i : Nat) (a b : α), l[i]? = some b →
      (l.set i a).countP f + (if f b then 1 else 0) =
        l.countP f + (if f a then 1 else 0) := by
  intro l
  induction l with
  | nil => intro i a b h; simp at h
  | cons x xs ih =>
    intro i a b h
    cases i with
    | zero =>
      simp only [List.getElem?_cons_zero, Option.some.injEq] at h
      subst h
      simp only [List.set_cons_zero, List.countP_cons]
      omega
    | succ n =>
      simp only [List.getElem?_cons_succ] at h
      simp only [List.set_cons_succ, List.countP_cons]
      have := ih n a b h
      omega

/-- The counter/phase-list consistency and the capacity bound, preserved by
every queue step. -/
lemma QStep_preserves {maxConcurrent : Nat} {s s' : QueueState}
    (hstep : QStep maxConcurrent s s')
    (hinv : s.running = s.phases.countP TaskPhase.isRunning ∧
      s.running ≤ maxConcurrent) :
    s'.running = s'.phases.countP TaskPhase.isRunning ∧
      s'.running ≤ maxConcurrent := by
  obtain ⟨hc, hb⟩ := hinv
  cases hstep with
  | start i hw hlt =>
    have hset := countP_set TaskPhase.isRunning s.phases i .running .waiting hw
    rw [isRunning_running, isRunning_waiting] at hset
    simp at hset
    constructor
    · show s.running + 1 = (s.phases.set i TaskPhase.running).countP TaskPhase.isRunning
      omega
    · show s.running + 1 ≤ maxConcurrent
      omega
  | finish i ok hr =>
    have hset := countP_set TaskPhase.isRunning s.phases i (.finished ok) .running hr
    rw [isRunning_running, isRunning_finished] at hset
    simp at hset
    constructor
    · show s.running - 1 =
        (s.phases.set i (TaskPhase.finished ok)).countP TaskPhase.isRunning
      omega
    · show s.running - 1 ≤ maxConcurrent
      omega

/-- Claim C9: in every state the queue can reach from `n` freshly submitted
tasks, the `running` counter equals the number of tasks currently executing
and never exceeds `maxConcurrent`; `getRunningCount` reports that counter and
`isFull` reports whether it has reached capacity; and a waiting task can only
transition to running in a step whose pre-state has a free slot
(`running < maxConcurrent`) — otherwise its caller stays suspended.  The
increment-before-execute / decrement-on-completion (return or throw)
behaviour is the `start` / `finish` rules of `QStep` themselves. -/
theorem requestQueue_bounded (maxConcurrent n : Nat) (s : QueueState)
    (h : QueueReachable maxConcurrent n s) :
    (getRunningCount s = s.phases.countP TaskPhase.isRunning ∧
      getRunningCount s ≤ maxConcurrent) ∧
    (isFull maxConcurrent s = true ↔ ¬getRunningCount s < maxConcurrent) ∧
    (∀ (s' : QueueState) (i : Nat), QStep maxConcurrent s s' →
      s.phases[i]? = some TaskPhase.waiting →
      s'.phases[i]? = some TaskPhase.running →
      getRunningCount s < maxConcurrent) := by
  refine ⟨?_, ?_, ?_⟩
  · induction h with
    | refl =>
      constructor
      · show (0 : Nat) = _
        symm
        simp [initQueue, List.countP_eq_zero, List.mem_replicate, isRunning_waiting]
      · exact Nat.zero_le _
    | tail _ hstep ih => exact QStep_preserves hstep ih
  · simp [isFull, getRunningCount, Nat.not_lt]
  · intro s' i hstep hw hr
    cases hstep with
    | start j hwj hlt => exact hlt
    | finish j ok hrj =>
      by_cases hij : j = i
      · subst hij
        have hlen : j < s.phases.length := by
          by_contra hcon
          push_neg at hcon
          rw [List.getElem?_eq_none hcon] at hw
          exact Option.noConfusion hw
        rw [List.getElem?_set_self hlen] at hr
        exact absurd (Option.some.inj hr) (by simp)
      · rw [List.getElem?_set_ne hij, hw] at hr
        exact absurd (Option.some.inj hr) (by simp)

/-- Witness for C9: the initial state (one task submitted, capacity one) is
reachable and satisfies the invariant. -/
theorem requestQueue_bounded_witness :
    (getRunningCount (initQueue 1) =
        (initQueue 1).phases.countP TaskPhase.isRunning ∧
      getRunningCount (initQueue 1) ≤ 1) ∧
    (isFull 1 (initQueue 1) = true ↔ ¬getRunningCount (initQueue 1) < 1) ∧
    (∀ (s' : QueueState) (i : Nat), QStep 1 (initQueue 1) s' →
      (initQueue 1).phases[i]? = some TaskPhase.waiting →
      s'.phases[i]? = some TaskPhase.running →
      getRunningCount (initQueue 1) < 1) :=
  requestQueue_bounded 1 1 (initQueue 1) Relation.ReflTransGen.refl

/-!
Lemmas about the per-item fan-out: the value `processItemWrites` stores under
a configuration id is exactly that configuration's own `taskWrites` — sibling
configurations cannot affect it, because every task writes only under its own
key.
-/

def mergeOpt {α : Type} : Option α → Option α → Option α
  | some v, _ => some v
  | none, x => x

lemma mergeOpt_none {α : Type} (w : Option α) : mergeOpt w none = w := by
  cases w <;> rfl

lemma mergeOpt_idem {α : Type} (w x : Option α) :
    mergeOpt w (mergeOpt w x) = mergeOpt w x := by
  cases w <;> rfl

lemma applyWrite_eval {α : Type} (m : RecMap α) (k q : String) (w : Option α) :
    applyWrite m k w q = if q = k then mergeOpt w (m q) else m q := by
  cases w with
  | some v =>
    by_cases h : q = k <;> simp [applyWrite, RecMap.set, mergeOpt, h]
  | none =>
    by_cases h : q = k <;> simp [applyWrite, mergeOpt, h]

lemma foldWrites_lookup (cfg : BatchConfig)
    (genOracle : String → Except String String)
    (evalOracle : String → Except String EvaluationResult) (ab : AbortObs) :
    ∀ (active : List String) (acc : RecMap String × RecMap Evaluation)
      (cid : String),
      ((active.foldl
        (fun acc cid =>
          let w := taskWrites cfg genOracle evalOracle ab cid
          (applyWrite acc.1 cid w.1, applyWrite acc.2 cid w.2))
        acc).1 cid =
          (if cid ∈ active then
            mergeOpt (taskWrites cfg genOracle evalOracle ab cid).1 (acc.1 cid)
          else acc.1 cid)) ∧
      ((active.foldl
        (fun acc cid =>
          let w := taskWrites cfg genOracle evalOracle ab cid
          (applyWrite acc.1 cid w.1, applyWrite acc.2 cid w.2))
        acc).2 cid =
          (if cid ∈ active then
            mergeOpt (taskWrites cfg genOracle evalOracle ab cid).2 (acc.2 cid)
          else acc.2 cid)) := by
  intro active
  induction active with
  | nil => intro acc cid; simp
  | cons c rest ih =>
    intro acc cid
    simp only [List.foldl_cons]
    obtain ⟨ih1, ih2⟩ := ih
      ⟨applyWrite acc.1 c (taskWrites cfg genOracle evalOracle ab c).1,
        applyWrite acc.2 c (taskWrites cfg genOracle evalOracle ab c).2⟩ cid
    rw [ih1, ih2]
    simp only [applyWrite_eval]
    by_cases hc : cid = c
    · subst hc
      by_cases hm : cid ∈ rest <;>
        simp [hm, mergeOpt_idem, List.mem_cons]
    · by_cases hm : cid ∈ rest <;>
        simp [hm, hc, List.mem_cons]

/-- For an active configuration id, the fan-out's accumulated maps hold
exactly that configuration's own writes. -/
lemma processItemWrites_eval (cfg : BatchConfig)
    (genOracle : String → Except String String)
    (evalOracle : String → Except String EvaluationResult) (ab : AbortObs)
    (cid : String) (h : cid ∈ cfg.activeRunConfigs) :
    (processItemWrites cfg genOracle evalOracle ab).1 cid =
      (taskWrites cfg genOracle evalOracle ab cid).1 ∧
    (processItemWrites cfg genOracle evalOracle ab).2 cid =
      (taskWrites cfg genOracle evalOracle ab cid).2 := by
  obtain ⟨h1, h2⟩ := foldWrites_lookup cfg genOracle evalOracle ab
    cfg.activeRunConfigs (RecMap.empty, RecMap.empty) cid
  rw [processItemWrites, h1, h2]
  simp [h, RecMap.empty, mergeOpt_none]

/-!
Lemmas about the sequential item loop: `updateById` algebra, the final state
of an uncancelled run, and its characterization as a per-item map.
-/

lemma updateById_cons (id : String) (f : BatchItem → BatchItem)
    (x : BatchItem) (xs : List BatchItem) :
    updateById id f (x :: xs) =
      (if x.id = id then f x else x) :: updateById id f xs := rfl

lemma updateById_eq_of_not_mem (id : String) (f : BatchItem → BatchItem) :
    ∀ (xs : List BatchItem), id ∉ xs.map (fun it => it.id) →
      updateById id f xs = xs := by
  intro xs
  induction xs with
  | nil => intro _; rfl
  | cons x rest ih =>
    intro h
    simp only [List.map_cons, List.mem_cons, not_or] at h
    rw [updateById_cons, if_neg (fun hx => h.1 hx.symm), ih h.2]

lemma updateById_updateById (id : String) (f g : BatchItem → BatchItem)
    (hg : ∀ it : BatchItem, (g it).id = it.id) (xs : List BatchItem) :
    updateById id f (updateById id g xs) =
      updateById id (fun it => f (g it)) xs := by
  simp only [updateById, List.map_map]
  apply List.map_eq_map_iff.mpr
  intro a _
  by_cases h : a.id = id
  · simp [Function.comp, h, hg]
  · simp [Function.comp, h]

lemma updateById_map_id (id : String) (f : BatchItem → BatchItem)
    (hf : ∀ it : BatchItem, (f it).id = it.id) (xs : List BatchItem) :
    (updateById id f xs).map (fun it => it.id) = xs.map (fun it => it.id) := by
  simp only [updateById, List.map_map]
  apply List.map_eq_map_iff.mpr
  intro a _
  by_cases h : a.id = id
  · simp [Function.comp, h, hf]
  · simp [Function.comp, h]

lemma mem_updateById {id : String} {f : BatchItem → BatchItem}
    {xs : List BatchItem} {it : BatchItem} (h : it ∈ updateById id f xs) :
    ∃ orig ∈ xs, it = if orig.id = id then f orig else orig := by
  rcases List.mem_map.mp h with ⟨orig, hmem, heq⟩
  exact ⟨orig, hmem, heq.symm⟩

/-- Collapsing the `processing` mark and the final `done` write on the same
item id into the single `done` write (the mark only changes `status`, which
the `done` write overwrites). -/
lemma updateById_mark_finish (id : String)
    (w : RecMap String × RecMap Evaluation) (xs : List BatchItem) :
    updateById id (finishItem w) (updateById id markProcessing xs) =
      updateById id (finishItem w) xs :=
  updateById_updateById id (finishItem w) markProcessing (fun _ => rfl) xs

/-- Without cancellation, the loop's final state is the fold of the per-item
`done` writes over the pending list. -/
lemma runPending_noAbort_final (cfg : BatchConfig)
    (genOracle : String → String → Except String String)
    (evalOracle : String → String → Except String EvaluationResult)
    (abortOf : String → AbortObs) (hA : ∀ id, abortOf id = noAbortObs) :
    ∀ (pending state : List BatchItem),
      (runPending cfg genOracle evalOracle abortOf pending state).getLastD state =
        pending.foldl
          (fun acc it => updateById it.id
            (finishItem (processItemWrites cfg (genOracle it.id)
              (evalOracle it.id) noAbortObs)) acc)
          state := by
  intro pending
  induction pending with
  | nil => intro state; rfl
  | cons item rest ih =>
    intro state
    rw [runPending, hA item.id]
    simp only [noAbortObs, Bool.false_eq_true, if_false, List.foldl_cons]
    rw [List.getLastD_cons, List.getLastD_cons, updateById_mark_finish, ih]
    rfl

lemma foldl_update_head_skip (F : String → BatchItem → BatchItem) :
    ∀ (pend : List BatchItem) (x : BatchItem) (xs : List BatchItem),
      (∀ it ∈ pend, it.id ≠ x.id) →
      pend.foldl (fun acc it => updateById it.id (F it.id) acc) (x :: xs) =
        x :: pend.foldl (fun acc it => updateById it.id (F it.id) acc) xs := by
  intro pend
  induction pend with
  | nil => intro x xs _; rfl
  | cons p ps ih =>
    intro x xs h
    simp only [List.foldl_cons, updateById_cons]
    rw [if_neg (fun hx => h p (List.mem_cons_self p ps) hx.symm)]
    exact ih x (updateById p.id (F p.id) xs)
      fun it hit => h it (List.mem_cons_of_mem p hit)

/-- Folding one `updateById` per selected item over a batch with distinct ids
is the same as mapping the per-item transform over the batch. -/
lemma foldl_update_eq_map (F : String → BatchItem → BatchItem)
    (hF : ∀ id it, (F id it).id = it.id) (p : BatchItem → Bool) :
    ∀ (items : List BatchItem), (items.map (fun it => it.id)).Nodup →
      (items.filter p).foldl
          (fun acc it => updateById it.id (F it.id) acc) items =
        items.map (fun it => if p it then F it.id it else it) := by
  intro items
  induction items with
  | nil => intro _; rfl
  | cons x xs ih =>
    intro hnd
    simp only [List.map_cons, List.nodup_cons] at hnd
    obtain ⟨hx, hxs⟩ := hnd
    cases hp : p x with
    | true =>
      rw [List.filter_cons_of_pos hp, List.foldl_cons, updateById_cons,
        if_pos rfl, updateById_eq_of_not_mem x.id (F x.id) xs hx,
        foldl_update_head_skip F (xs.filter p) (F x.id x) xs
          (fun it hit => by
            have hmem : it.id ∈ xs.map (fun i => i.id) :=
              List.mem_map_of_mem _ (List.mem_of_mem_filter hit)
            rw [hF x.id x]
            exact fun he => hx (he ▸ hmem)),
        ih hxs]
      simp [hp]
    | false =>
      rw [List.filter_cons_of_neg (by simp [hp]),
        foldl_update_head_skip F (xs.filter p) x xs
          (fun it hit => by
            have hmem : it.id ∈ xs.map (fun i => i.id) :=
              List.mem_map_of_mem _ (List.mem_of_mem_filter hit)
            exact fun he => hx (he ▸ hmem)),
        ih hxs]
      simp [hp]

/-- Characterization of an uncancelled `processBatch` over a batch with
distinct ids: every not-yet-done item is finished with its own fan-out
writes; done items are untouched. -/
lemma processBatch_noAbort_char (cfg : BatchConfig)
    (genOracle : String → String → Except String String)
    (evalOracle : String → String → Except String EvaluationResult)
    (abortOf : String → AbortObs) (items : List BatchItem)
    (hA : ∀ id, abortOf id = noAbortObs)
    (hnd : (items.map (fun it => it.id)).Nodup) :
    processBatch cfg genOracle evalOracle abortOf items =
      items.map (fun it =>
        if !it.status.isDone then
          finishItem (processItemWrites cfg (genOracle it.id)
            (evalOracle it.id) noAbortObs) it
        else it) := by
  rw [processBatch, processBatchTrace, runPending_noAbort_final cfg genOracle
    evalOracle abortOf hA]
  exact foldl_update_eq_map
    (fun id it => finishItem (processItemWrites cfg (genOracle id)
      (evalOracle id) noAbortObs) it)
    (fun _ _ => rfl) (fun it => !it.status.isDone) items hnd

/-- In a batch with distinct ids, looking a member item up by id after an
id-preserving per-item map finds that item's image. -/
lemma find?_map_eq (txFn : BatchItem → BatchItem)
    (htx : ∀ it, (txFn it).id = it.id) :
    ∀ (items : List BatchItem), (items.map (fun it => it.id)).Nodup →
      ∀ item ∈ items,
        (items.map txFn).find? (fun it => it.id = item.id) = some (txFn item) := by
  intro items
  induction items with
  | nil => intro _ item hmem; exact absurd hmem (List.not_mem_nil item)
  | cons x xs ih =>
    intro hnd item hmem
    simp only [List.map_cons, List.nodup_cons] at hnd
    obtain ⟨hx, hxs⟩ := hnd
    rcases List.mem_cons.mp hmem with rfl | hmem'
    · exact List.find?_cons_of_pos _ (by simp [htx])
    · have hne : x.id ≠ item.id := by
        intro he
        exact hx (he ▸ List.mem_map_of_mem _ hmem')
      rw [List.map_cons, List.find?_cons_of_neg _ (by simp [htx, hne])]
      exact ih hxs item hmem'

/-- Counterexample to claim C1 as stated: when the generation succeeds and the
judge evaluation throws (mocked as `boom`), `results[configId]` keeps the
generated text — it does not become the error marker string — while only
`evaluations[configId]` records the zero-score failure, and the item is
`done`. -/
theorem processBatch_eval_throw_cex :
    ((processBatch cfgSingle genSummaryResult evalBoom noAbort [itemOne]).map
      fun it => (it.status, it.results "config1", it.evaluations "config1")) =
      [(Status.done, some "Summary result",
        some ⟨0, "Evaluation failed", false, none, none⟩)] ∧
    some "Summary result" ≠ some ("Error: " ++ "boom") := by
  decide

/-- Claim C1 (amended): with no cancellation and distinct item ids, every
selected item reaches `done` carrying exactly its own fan-out writes (the
model's totality mirrors that no per-configuration exception escapes
`processBatch`), and per configuration: a generation throw records
`results[configId] = "Error: <message>"` plus a zero-score `Generation
failed` evaluation; a successful generation's text is stored in
`results[configId]` regardless of the other configurations' outcomes (sibling
isolation); and an evaluation throw after a successful generation leaves the
generated text in place and records only a zero-score `Evaluation failed`
evaluation. -/
theorem processBatch_error_isolation (cfg : BatchConfig)
    (genOracle : String → String → Except String String)
    (evalOracle : String → String → Except String EvaluationResult)
    (abortOf : String → AbortObs) (items : List BatchItem) (item : BatchItem)
    (hA : ∀ id, abortOf id = noAbortObs)
    (hnd : (items.map (fun it => it.id)).Nodup)
    (hmem : item ∈ items) (hsel : item.status.isDone = false) :
    ((processBatch cfg genOracle evalOracle abortOf items).find?
        (fun it => it.id = item.id) =
      some (finishItem (processItemWrites cfg (genOracle item.id)
        (evalOracle item.id) noAbortObs) item)) ∧
    (finishItem (processItemWrites cfg (genOracle item.id)
      (evalOracle item.id) noAbortObs) item).status = Status.done ∧
    (∀ cid, cid ∈ cfg.activeRunConfigs → ∀ rc, findRunConfig cfg cid = some rc →
      (∀ e, genOracle item.id cid = .error e →
        (processItemWrites cfg (genOracle item.id) (evalOracle item.id)
          noAbortObs).1 cid = some ("Error: " ++ e) ∧
        (processItemWrites cfg (genOracle item.id) (evalOracle item.id)
          noAbortObs).2 cid =
          some ⟨0, "Generation failed", false, none, none⟩) ∧
      (∀ t, genOracle item.id cid = .ok t →
        (processItemWrites cfg (genOracle item.id) (evalOracle item.id)
          noAbortObs).1 cid = some t) ∧
      (∀ t msg, genOracle item.id cid = .ok t →
        (judgeModelFor cfg rc).isEmpty = false →
        evalOracle item.id cid = .error msg →
        (processItemWrites cfg (genOracle item.id) (evalOracle item.id)
          noAbortObs).2 cid =
          some ⟨0, "Evaluation failed", false, none, none⟩)) := by
  refine ⟨?_, rfl, ?_⟩
  · rw [processBatch_noAbort_char cfg genOracle evalOracle abortOf items hA hnd,
      find?_map_eq _ (fun it => by
        cases h : (!it.status.isDone) <;> simp [h, finishItem]) items hnd item hmem]
    simp [hsel]
  · intro cid hcid rc hrc
    obtain ⟨hw1, hw2⟩ := processItemWrites_eval cfg (genOracle item.id)
      (evalOracle item.id) noAbortObs cid hcid
    rw [hw1, hw2]
    simp only [taskWrites, hrc]
    refine ⟨?_, ?_, ?_⟩
    · intro e hg
      simp [runConfigTask, hg, noAbortObs]
    · intro t hg
      cases hjm : (judgeModelFor cfg rc).isEmpty
      · cases hev : evalOracle item.id cid <;>
          simp [runConfigTask, hg, hjm, hev, noAbortObs]
      · simp [runConfigTask, hg, hjm, noAbortObs]
    · intro t msg hg hjm hev
      simp [runConfigTask, hg, hjm, hev, noAbortObs]

/-- Witness for the amended C1: configuration `A`'s generation throws `boom`,
configuration `B` succeeds but its judge invocation throws — `A` records the
error marker and a `Generation failed` evaluation, `B` keeps its generated
text with an `Evaluation failed` evaluation, and the item is found `done`. -/
theorem processBatch_error_isolation_witness :
    (([itemOne].map (fun it => it.id)).Nodup ∧
      itemOne.status.isDone = false) ∧
    ((processBatch cfgIso genIso evalIso noAbort [itemOne]).find?
        (fun it => it.id = itemOne.id) =
      some (finishItem (processItemWrites cfgIso (genIso itemOne.id)
        (evalIso itemOne.id) noAbortObs) itemOne)) ∧
    (finishItem (processItemWrites cfgIso (genIso itemOne.id)
      (evalIso itemOne.id) noAbortObs) itemOne).status = Status.done ∧
    (processItemWrites cfgIso (genIso itemOne.id) (evalIso itemOne.id)
      noAbortObs).1 "A" = some ("Error: " ++ "boom") ∧
    (processItemWrites cfgIso (genIso itemOne.id) (evalIso itemOne.id)
      noAbortObs).2 "A" = some ⟨0, "Generation failed", false, none, none⟩ ∧
    (processItemWrites cfgIso (genIso itemOne.id) (evalIso itemOne.id)
      noAbortObs).1 "B" = some "B output" ∧
    (processItemWrites cfgIso (genIso itemOne.id) (evalIso itemOne.id)
      noAbortObs).2 "B" = some ⟨0, "Evaluation failed", false, none, none⟩ :=
  ⟨⟨by decide, rfl⟩,
    (processBatch_error_isolation cfgIso genIso evalIso noAbort [itemOne]
      itemOne (fun _ => rfl) (by decide) (List.mem_cons_self itemOne []) rfl).1,
    (processBatch_error_isolation cfgIso genIso evalIso noAbort [itemOne]
      itemOne (fun _ => rfl) (by decide) (List.mem_cons_self itemOne []) rfl).2.1,
    (((processBatch_error_isolation cfgIso genIso evalIso noAbort [itemOne]
      itemOne (fun _ => rfl) (by decide) (List.mem_cons_self itemOne []) rfl).2.2
      "A" (by decide) ⟨"A", "mA"⟩ rfl).1 "boom" rfl).1,
    (((processBatch_error_isolation cfgIso genIso evalIso noAbort [itemOne]
      itemOne (fun _ => rfl) (by decide) (List.mem_cons_self itemOne []) rfl).2.2
      "A" (by decide) ⟨"A", "mA"⟩ rfl).1 "boom" rfl).2,
    (((processBatch_error_isolation cfgIso genIso evalIso noAbort [itemOne]
      itemOne (fun _ => rfl) (by decide) (List.mem_cons_self itemOne []) rfl).2.2
      "B" (by decide) ⟨"B", "mB"⟩ rfl).2.1 "B output" rfl),
    (((processBatch_error_isolation cfgIso genIso evalIso noAbort [itemOne]
      itemOne (fun _ => rfl) (by decide) (List.mem_cons_self itemOne []) rfl).2.2
      "B" (by decide) ⟨"B", "mB"⟩ rfl).2.2 "B output" "judge down" rfl rfl rfl)⟩

/-- Marking an item `processing` changes no item's `results`. -/
lemma updateById_markProcessing_results (id : String) (items : List BatchItem) :
    (updateById id markProcessing items).map (fun it => it.results) =
      items.map (fun it => it.results) := by
  simp only [updateById, List.map_map]
  apply List.map_eq_map_iff.mpr
  intro a _
  by_cases h : a.id = id
  · simp [Function.comp, h, markProcessing]
  · simp [Function.comp, h]

/-- Counterexample to claim C2 as stated: two configurations (`fast`, `slow`);
cancellation observed after `fast`'s generation resolved (and its result was
accumulated locally) but before `slow`'s resolved.  The post-fan-out abort
check makes the loop break before the write-back, so the fast result is NOT
retained in the item: the item stays `processing` with `results` empty. -/
theorem processBatch_cancel_midflight_cex :
    ((processBatch cfgTwo genFastSlow evalBoom abortMidFlight [itemOne]).map
      fun it => (it.status, it.results "fast", it.results "slow")) =
      [(Status.processing, none, none)] ∧
    (none : Option String) ≠ some "fast result" := by
  decide

/-- Claim C2 (amended): when cancellation is observed at the post-fan-out
check of the first selected item (fired after the fast configuration resolved
but before the slow one), `processBatch` writes back NEITHER configuration's
result: the final state is the input batch with that item merely marked
`processing`, and every item's `results` map — including the in-flight item's
— is exactly as before the call, so the slow result is not written back and
the fast result is discarded along with it. -/
theorem processBatch_cancel_discards (cfg : BatchConfig)
    (genOracle : String → String → Except String String)
    (evalOracle : String → String → Except String EvaluationResult)
    (abortOf : String → AbortObs) (items : List BatchItem)
    (item : BatchItem) (rest : List BatchItem)
    (hpend : items.filter (fun i => !i.status.isDone) = item :: rest)
    (hp0 : (abortOf item.id).p0 = false)
    (hp1 : (abortOf item.id).p1 = true) :
    processBatch cfg genOracle evalOracle abortOf items =
      updateById item.id markProcessing items ∧
    (processBatch cfg genOracle evalOracle abortOf items).map
        (fun it => it.results) =
      items.map (fun it => it.results) := by
  have hmain : processBatch cfg genOracle evalOracle abortOf items =
      updateById item.id markProcessing items := by
    rw [processBatch, processBatchTrace, hpend, runPending, hp0, hp1]
    simp
  exact ⟨hmain, by rw [hmain, updateById_markProcessing_results]⟩

/-- Witness for the amended C2 at the concrete mid-flight cancellation
scenario. -/
theorem processBatch_cancel_discards_witness :
    ([itemOne].filter (fun i => !i.status.isDone) = itemOne :: [] ∧
      (abortMidFlight itemOne.id).p0 = false ∧
      (abortMidFlight itemOne.id).p1 = true) ∧
    processBatch cfgTwo genFastSlow evalBoom abortMidFlight [itemOne] =
      updateById itemOne.id markProcessing [itemOne] ∧
    (processBatch cfgTwo genFastSlow evalBoom abortMidFlight [itemOne]).map
        (fun it => it.results) =
      [itemOne].map (fun it => it.results) :=
  ⟨⟨rfl, rfl, rfl⟩,
    processBatch_cancel_discards cfgTwo genFastSlow evalBoom abortMidFlight
      [itemOne] itemOne [] rfl rfl rfl⟩

/-!
Lemmas for the sequencing claim: at every point of the loop's trace at most
one item is `processing`, and an item can be `processing` only when every
selected item before it in input order has already settled to `done`.
-/

lemma isProcessing_iff (s : Status) : s.isProcessing = true ↔ s = .processing := by
  cases s <;> simp [Status.isProcessing]

lemma countP_eq_zero_of_none (s : List BatchItem)
    (h : ∀ it ∈ s, it.status ≠ Status.processing) :
    s.countP (fun it => it.status.isProcessing) = 0 :=
  List.countP_eq_zero.mpr fun it hit => by
    simp only [isProcessing_iff]
    exact h it hit

/-- Marking one id `processing` in a no-`processing` batch with distinct ids
leaves at most one `processing` item. -/
lemma countP_mark_le_one (id : String) :
    ∀ (state : List BatchItem),
      (∀ it ∈ state, it.status ≠ Status.processing) →
      ((state.map (fun it => it.id)).Nodup) →
      (updateById id markProcessing state).countP
        (fun it => it.status.isProcessing) ≤ 1 := by
  intro state
  induction state with
  | nil => intro _ _; simp [updateById]
  | cons x xs ih =>
    intro hstate hnd
    simp only [List.map_cons, List.nodup_cons] at hnd
    obtain ⟨hx, hxs⟩ := hnd
    rw [updateById_cons, List.countP_cons]
    by_cases hcond : x.id = id
    · rw [if_pos hcond]
      have hz : (updateById id markProcessing xs).countP
          (fun it => it.status.isProcessing) = 0 := by
        rw [updateById_eq_of_not_mem id markProcessing xs (hcond ▸ hx)]
        exact countP_eq_zero_of_none xs
          fun it hit => hstate it (List.mem_cons_of_mem x hit)
      rw [hz]
      simp [markProcessing, Status.isProcessing]
    · rw [if_neg hcond]
      have hxnot : x.status.isProcessing = false := by
        rw [Bool.eq_false_iff]
        intro hp
        exact hstate x (List.mem_cons_self x xs) ((isProcessing_iff _).mp hp)
      rw [hxnot]
      simp only [Bool.false_eq_true, if_false, Nat.add_zero]
      exact ih (fun it hit => hstate it (List.mem_cons_of_mem x hit)) hxs

/-- The `done` write (on top of a no-`processing` batch) leaves no item
`processing`. -/
lemma finish_no_processing (id : String)
    (w : RecMap String × RecMap Evaluation) (state : List BatchItem)
    (hstate : ∀ it ∈ state, it.status ≠ Status.processing) :
    ∀ it ∈ updateById id (finishItem w) state,
      it.status ≠ Status.processing := by
  intro it hit
  rcases mem_updateById hit with ⟨orig, horig, heq⟩
  by_cases hcond : orig.id = id
  · rw [if_pos hcond] at heq
    subst heq
    simp [finishItem]
  · rw [if_neg hcond] at heq
    subst heq
    exact hstate it horig

/-- Every entry carrying the finished item's id is `done` after the `done`
write. -/
lemma updateById_self_done (id : String)
    (w : RecMap String × RecMap Evaluation) (state : List BatchItem) :
    ∀ it ∈ updateById id (finishItem w) state,
      it.id = id → it.status = Status.done := by
  intro it hit hid
  rcases mem_updateById hit with ⟨orig, horig, heq⟩
  by_cases hcond : orig.id = id
  · rw [if_pos hcond] at heq
    subst heq
    rfl
  · rw [if_neg hcond] at heq
    subst heq
    exact absurd hid hcond

/-- An update on an id different from `x` preserves "every entry with id `x`
is done". -/
lemma updateById_foreign_done (id x : String) (f : BatchItem → BatchItem)
    (hf : ∀ it : BatchItem, (f it).id = it.id) (state : List BatchItem)
    (hx : id ≠ x)
    (hdone : ∀ it ∈ state, it.id = x → it.status = Status.done) :
    ∀ it ∈ updateById id f state, it.id = x → it.status = Status.done := by
  intro it hit hid
  rcases mem_updateById hit with ⟨orig, horig, heq⟩
  by_cases hcond : orig.id = id
  · rw [if_pos hcond] at heq
    subst heq
    rw [hf orig, hcond] at hid
    exact absurd hid hx
  · rw [if_neg hcond] at heq
    subst heq
    exact hdone it horig hid

/-- Items whose id is not among the pending ids keep "done at id `x`" through
the whole remaining trace. -/
lemma runPending_preserves_foreign (cfg : BatchConfig)
    (genOracle : String → String → Except String String)
    (evalOracle : String → String → Except String EvaluationResult)
    (abortOf : String → AbortObs) (x : String) :
    ∀ (pending state : List BatchItem),
      (∀ p ∈ pending, p.id ≠ x) →
      (∀ it ∈ state, it.id = x → it.status = Status.done) →
      ∀ s ∈ runPending cfg genOracle evalOracle abortOf pending state,
        ∀ it ∈ s, it.id = x → it.status = Status.done := by
  intro pending
  induction pending with
  | nil =>
    intro state _ _ s hs
    simp [runPending] at hs
  | cons item rest ih =>
    intro state hforeign hbase s hs
    have hitem : item.id ≠ x := hforeign item (List.mem_cons_self item rest)
    have h1 : ∀ it ∈ updateById item.id markProcessing state,
        it.id = x → it.status = Status.done :=
      updateById_foreign_done item.id x markProcessing (fun _ => rfl)
        state hitem hbase
    simp only [runPending] at hs
    split at hs
    · exact absurd hs (List.not_mem_nil s)
    split at hs
    · rw [List.mem_singleton] at hs
      subst hs
      exact h1
    rcases List.mem_cons.mp hs with rfl | hs2
    · exact h1
    rcases List.mem_cons.mp hs2 with rfl | hs3
    · exact updateById_foreign_done item.id x (finishItem _) (fun _ => rfl)
        _ hitem h1
    · exact ih _ (fun p hp => hforeign p (List.mem_cons_of_mem item hp))
        (updateById_foreign_done item.id x (finishItem _) (fun _ => rfl)
          _ hitem h1) s hs3

/-- The loop invariant: starting from a no-`processing` batch with distinct
ids and a duplicate-free pending list, every state the loop emits has at most
one `processing` item, and any `processing` item is one of the pending items,
with every pending item before it (in input order) already `done`. -/
lemma runPending_inv (cfg : BatchConfig)
    (genOracle : String → String → Except String String)
    (evalOracle : String → String → Except String EvaluationResult)
    (abortOf : String → AbortObs) :
    ∀ (pending state : List BatchItem),
      (∀ it ∈ state, it.status ≠ Status.processing) →
      ((state.map (fun it => it.id)).Nodup) →
      ((pending.map (fun it => it.id)).Nodup) →
      ∀ s ∈ runPending cfg genOracle evalOracle abortOf pending state,
        s.countP (fun it => it.status.isProcessing) ≤ 1 ∧
        ∀ it ∈ s, it.status = Status.processing →
          ∃ before p after, pending = before ++ p :: after ∧ it.id = p.id ∧
            ∀ q ∈ before, ∀ it2 ∈ s, it2.id = q.id →
              it2.status = Status.done := by
  intro pending
  induction pending with
  | nil =>
    intro state _ _ _ s hs
    simp [runPending] at hs
  | cons item rest ih =>
    intro state hstate hnd hpnd s hs
    simp only [List.map_cons, List.nodup_cons] at hpnd
    obtain ⟨hidrest, hpnd'⟩ := hpnd
    have hmarkinv : ∀ s0, s0 = updateById item.id markProcessing state →
        s0.countP (fun it => it.status.isProcessing) ≤ 1 ∧
        ∀ it ∈ s0, it.status = Status.processing →
          ∃ before p after,
            item :: rest = before ++ p :: after ∧ it.id = p.id ∧
            ∀ q ∈ before, ∀ it2 ∈ s0, it2.id = q.id →
              it2.status = Status.done := by
      intro s0 hs0
      subst hs0
      refine ⟨countP_mark_le_one item.id state hstate hnd, ?_⟩
      intro it hit hproc
      rcases mem_updateById hit with ⟨orig, horig, heq⟩
      by_cases hcond : orig.id = item.id
      · rw [if_pos hcond] at heq
        subst heq
        exact ⟨[], item, rest, rfl, hcond, fun q hq => absurd hq (List.not_mem_nil q)⟩
      · rw [if_neg hcond] at heq
        subst heq
        exact absurd hproc (hstate it horig)
    simp only [runPending] at hs
    split at hs
    · exact absurd hs (List.not_mem_nil s)
    split at hs
    · rw [List.mem_singleton] at hs
      exact hmarkinv s hs
    rcases List.mem_cons.mp hs with rfl | hs2
    · exact hmarkinv _ rfl
    have hcollapse :
        updateById item.id
          (finishItem (processItemWrites cfg (genOracle item.id)
            (evalOracle item.id) (abortOf item.id)))
          (updateById item.id markProcessing state) =
        updateById item.id
          (finishItem (processItemWrites cfg (genOracle item.id)
            (evalOracle item.id) (abortOf item.id))) state :=
      updateById_mark_finish item.id _ state
    have hs2state : ∀ it ∈ updateById item.id
        (finishItem (processItemWrites cfg (genOracle item.id)
          (evalOracle item.id) (abortOf item.id)))
        (updateById item.id markProcessing state),
        it.status ≠ Status.processing := by
      rw [hcollapse]
      exact finish_no_processing item.id _ state hstate
    rcases List.mem_cons.mp hs2 with rfl | hs3
    · refine ⟨?_, ?_⟩
      · rw [countP_eq_zero_of_none _ hs2state]
        exact Nat.zero_le 1
      · intro it hit hproc
        exact absurd hproc (hs2state it hit)
    · have hnd2 : ((updateById item.id
          (finishItem (processItemWrites cfg (genOracle item.id)
            (evalOracle item.id) (abortOf item.id)))
          (updateById item.id markProcessing state)).map
            (fun it => it.id)).Nodup := by
        rw [updateById_map_id item.id
            (finishItem (processItemWrites cfg (genOracle item.id)
              (evalOracle item.id) (abortOf item.id))) (fun _ => rfl),
          updateById_map_id item.id markProcessing (fun _ => rfl)]
        exact hnd
      obtain ⟨ha, hb⟩ := ih _ hs2state hnd2 hpnd' s hs3
      refine ⟨ha, ?_⟩
      intro it hit hproc
      obtain ⟨before, p, after, heq, hid, hdone⟩ := hb it hit hproc
      refine ⟨item :: before, p, after, by rw [heq]; rfl, hid, ?_⟩
      intro q hq it2 hit2 hid2
      rcases List.mem_cons.mp hq with rfl | hq'
      · refine runPending_preserves_foreign cfg genOracle evalOracle abortOf
          q.id rest _ ?_ ?_ s hs3 it2 hit2 hid2
        · intro pp hpp hppid
          exact hidrest (hppid ▸ List.mem_map_of_mem (fun i => i.id) hpp)
        · rw [hcollapse]
          exact updateById_self_done q.id _ state
      · exact hdone q hq' it2 hit2 hid2

/-- Claim C4: `processBatch` selects the items with status ≠ done and
processes them one at a time in input order.  In the initial state and in
every state the loop's `setBatchItems` updates produce, at most one item is
`processing`; and whenever a selected item is `processing`, every selected
item that precedes it in the input order has already settled to `done` — so
item N+1 is not marked `Processing` before item N is `Done`.  (Configurations
inside one item run in a single `Promise.all` producing no intermediate batch
states, so the trace is independent of their completion order.)  Holds for
every cancellation schedule. -/
theorem processBatch_sequential (cfg : BatchConfig)
    (genOracle : String → String → Except String String)
    (evalOracle : String → String → Except String EvaluationResult)
    (abortOf : String → AbortObs) (items : List BatchItem)
    (h0 : ∀ it ∈ items, it.status ≠ Status.processing)
    (hnd : (items.map (fun it => it.id)).Nodup) :
    ∀ s ∈ items :: processBatchTrace cfg genOracle evalOracle abortOf items,
      s.countP (fun it => it.status.isProcessing) ≤ 1 ∧
      ∀ it ∈ s, it.status = Status.processing →
        ∃ before p after,
          items.filter (fun i => !i.status.isDone) = before ++ p :: after ∧
          it.id = p.id ∧
          ∀ q ∈ before, ∀ it2 ∈ s, it2.id = q.id →
            it2.status = Status.done := by
  intro s hs
  rcases List.mem_cons.mp hs with rfl | hs'
  · refine ⟨?_, ?_⟩
    · rw [countP_eq_zero_of_none s h0]
      exact Nat.zero_le 1
    · intro it hit hproc
      exact absurd hproc (h0 it hit)
  · have hfilter : ((items.filter (fun i => !i.status.isDone)).map
        (fun it => it.id)).Nodup :=
      hnd.sublist ((List.filter_sublist items).map (fun it => it.id))
    exact runPending_inv cfg genOracle evalOracle abortOf
      (items.filter (fun i => !i.status.isDone)) items h0 hnd hfilter s hs'

/-- Witness for C4: a two-item batch, no cancellation — the initial state
satisfies the invariant (the theorem applied at the head of the trace). -/
theorem processBatch_sequential_witness :
    ([itemOne, itemTwo].countP (fun it => it.status.isProcessing) ≤ 1) ∧
    (∀ it ∈ [itemOne, itemTwo], it.status = Status.processing →
      ∃ before p after,
        [itemOne, itemTwo].filter (fun i => !i.status.isDone) =
          before ++ p :: after ∧
        it.id = p.id ∧
        ∀ q ∈ before, ∀ it2 ∈ [itemOne, itemTwo], it2.id = q.id →
          it2.status = Status.done) :=
  processBatch_sequential cfgSingle genSummaryResult evalBoom noAbort
    [itemOne, itemTwo] (by decide) (by decide) [itemOne, itemTwo]
    (List.mem_cons_self _ _)

end LlmTool
